import Mathlib

/-!
Verification of the scene-graph instancing and object-picking core of the
flow-ngin rendering engine.

The development shallowly embeds the relevant Rust code in Lean:
  - `src/data_structures/instance.rs`: the `Instance` transform value type and
    its composition algebra (`Mul` by value and by reference).
  - `src/data_structures/scene_graph.rs`: the `ContainerNode` / `ModelNode`
    scene tree, transform propagation (`update_world_transforms`), the
    instance-array mutation cascade (`add_instance`, `add_instances`,
    `remove_instance`, `clone_instance`), the GPU-buffer synchronization
    discipline (`write_to_buffers` with the `buffer_size_needs_change` flag),
    and the animation clip merge (`merge` / `save_current_anim`).
  - `src/render.rs`: `Render::map_ids`, building the picking id-to-owners map.

Modelling conventions:
  - `f32` scalars are modelled as exact rationals (the claims under scrutiny
    are structural, not about rounding).
  - Rust panics (`Vec` indexing and `Vec::remove` out of bounds,
    `Option::unwrap` on `None`, `todo!()`) are modelled by `Option.none`.
  - Logging (`warn!`) is a side effect with no bearing on state and is not
    modelled.
  - GPU handles are abstracted: the wgpu instance buffer is modelled by its
    element count (reallocation changes it, in-place writes do not); mesh,
    material and animation payload fields that the modelled operations merely
    carry along are omitted.
-/

/-- cgmath `Vector3<f32>`, with `f32` modelled as `ℚ`. -/
structure Vec3 where
  x : ℚ
  y : ℚ
  z : ℚ
deriving DecidableEq, Repr

/-- cgmath `Quaternion<f32>`: scalar part `s` and vector part `v`. -/
structure Quat where
  s : ℚ
  v : Vec3
deriving DecidableEq, Repr

/-- Componentwise vector sum (cgmath `Vector3 + Vector3`). -/
def Vec3.add (a b : Vec3) : Vec3 :=
  ⟨a.x + b.x, a.y + b.y, a.z + b.z⟩

/-- Scalar times vector (cgmath `Vector3 * S`). -/
def Vec3.smul (k : ℚ) (a : Vec3) : Vec3 :=
  ⟨k * a.x, k * a.y, k * a.z⟩

/-- Cross product (cgmath `Vector3::cross`). -/
def Vec3.cross (a b : Vec3) : Vec3 :=
  ⟨a.y * b.z - a.z * b.y, a.z * b.x - a.x * b.z, a.x * b.y - a.y * b.x⟩

/-- Componentwise product of two vectors, as written out in
`impl Mul for Instance` (`self.scale.x * rhs.scale.x`, ...). -/
def Vec3.compMul (a b : Vec3) : Vec3 :=
  ⟨a.x * b.x, a.y * b.y, a.z * b.z⟩

/-- Hamilton product (cgmath `Quaternion * Quaternion`). -/
def Quat.mul (a b : Quat) : Quat :=
  ⟨a.s * b.s - a.v.x * b.v.x - a.v.y * b.v.y - a.v.z * b.v.z,
   ⟨a.s * b.v.x + a.v.x * b.s + a.v.y * b.v.z - a.v.z * b.v.y,
    a.s * b.v.y + a.v.y * b.s + a.v.z * b.v.x - a.v.x * b.v.z,
    a.s * b.v.z + a.v.z * b.s + a.v.x * b.v.y - a.v.y * b.v.x⟩⟩

/-- Rotation of a vector by a quaternion (cgmath `Quaternion * Vector3`):
`tmp = qv × vec + s · vec; result = 2 · (qv × tmp) + vec`. -/
def Quat.rotateVec (q : Quat) (vec : Vec3) : Vec3 :=
  let tmp := (q.v.cross vec).add (Vec3.smul q.s vec)
  (Vec3.smul 2 (q.v.cross tmp)).add vec

/-- Embeds `Instance` from `src/data_structures/instance.rs`: one affine transform
(position, rotation, scale) applied to one copy of a mesh. -/
structure Instance where
  position : Vec3
  rotation : Quat
  scale : Vec3
deriving DecidableEq, Repr

/-- Embeds `Instance::new()`: identity transform (zero translation, identity
quaternion, unit scale). `Default` delegates to it. -/
def Instance.new : Instance :=
  ⟨⟨0, 0, 0⟩, ⟨1, ⟨0, 0, 0⟩⟩, ⟨1, 1, 1⟩⟩

/-- Embeds `impl Mul<Instance> for Instance` (by value):
rotation is the quaternion product, scale is componentwise, and the child
position is scaled by the parent scale, rotated by the parent rotation and
offset by the parent position. -/
def Instance.mulVal (self rhs : Instance) : Instance :=
  let new_rotation := self.rotation.mul rhs.rotation
  let new_scale : Vec3 :=
    ⟨self.scale.x * rhs.scale.x, self.scale.y * rhs.scale.y,
     self.scale.z * rhs.scale.z⟩
  let scaled_rhs_pos : Vec3 :=
    ⟨self.scale.x * rhs.position.x, self.scale.y * rhs.position.y,
     self.scale.z * rhs.position.z⟩
  let new_position := self.position.add (self.rotation.rotateVec scaled_rhs_pos)
  ⟨new_position, new_rotation, new_scale⟩

/-- Embeds `impl Mul<&Instance> for &Instance` (by reference): the source duplicates
the by-value body verbatim. -/
def Instance.mulRef (self rhs : Instance) : Instance :=
  let new_rotation := self.rotation.mul rhs.rotation
  let new_scale : Vec3 :=
    ⟨self.scale.x * rhs.scale.x, self.scale.y * rhs.scale.y,
     self.scale.z * rhs.scale.z⟩
  let scaled_rhs_pos : Vec3 :=
    ⟨self.scale.x * rhs.position.x, self.scale.y * rhs.position.y,
     self.scale.z * rhs.position.z⟩
  let new_position := self.position.add (self.rotation.rotateVec scaled_rhs_pos)
  ⟨new_position, new_rotation, new_scale⟩

/-- C5: for all `Instance`s `parent` and `child`, the product has
`position = parent.position + parent.rotation · (parent.scale ⊙ child.position)`,
`rotation = parent.rotation · child.rotation` (quaternion product), and
`scale = parent.scale ⊙ child.scale` (componentwise); and the by-value and
by-reference `Mul` implementations compute the same function. -/
theorem claim_C5 (parent child : Instance) :
    (Instance.mulVal parent child).position =
      parent.position.add
        (parent.rotation.rotateVec (parent.scale.compMul child.position)) ∧
    (Instance.mulVal parent child).rotation =
      parent.rotation.mul child.rotation ∧
    (Instance.mulVal parent child).scale = parent.scale.compMul child.scale ∧
    Instance.mulVal parent child = Instance.mulRef parent child := by
  refine ⟨rfl, rfl, rfl, rfl⟩

/-- cgmath `Matrix4<f32>`, modelled over `ℚ`. -/
abbrev Mat4 := Matrix (Fin 4) (Fin 4) ℚ

/-- cgmath `Matrix4::from_translation(t)`. -/
def matFromTranslation (t : Vec3) : Mat4 :=
  !![1, 0, 0, t.x; 0, 1, 0, t.y; 0, 0, 1, t.z; 0, 0, 0, 1]

/-- cgmath `impl From<Quaternion> for Matrix4` (the `Matrix4::new` call there is
column-major; the entries below are the same matrix written by rows). -/
def matFromQuat (q : Quat) : Mat4 :=
  let x2 := q.v.x + q.v.x
  let y2 := q.v.y + q.v.y
  let z2 := q.v.z + q.v.z
  let xx2 := x2 * q.v.x
  let xy2 := x2 * q.v.y
  let xz2 := x2 * q.v.z
  let yy2 := y2 * q.v.y
  let yz2 := y2 * q.v.z
  let zz2 := z2 * q.v.z
  let sy2 := y2 * q.s
  let sz2 := z2 * q.s
  let sx2 := x2 * q.s
  !![1 - yy2 - zz2, xy2 - sz2, xz2 + sy2, 0;
     xy2 + sz2, 1 - xx2 - zz2, yz2 - sx2, 0;
     xz2 - sy2, yz2 + sx2, 1 - xx2 - yy2, 0;
     0, 0, 0, 1]

/-- cgmath `Matrix4::from_nonuniform_scale(sx, sy, sz)`. -/
def matFromScale (sc : Vec3) : Mat4 :=
  !![sc.x, 0, 0, 0; 0, sc.y, 0, 0; 0, 0, sc.z, 0; 0, 0, 0, 1]

/-- Embeds `Instance::to_matrix()`: translation × rotation × non-uniform scale. -/
def Instance.toMatrix (i : Instance) : Mat4 :=
  matFromTranslation i.position * matFromQuat i.rotation * matFromScale i.scale

mutual
/-- The scene tree of `scene_graph.rs`, as a tagged-variant tree.
`container` embeds `ContainerNode` (no GPU buffer), `model` embeds `ModelNode`
with its instance buffer abstracted to its element count `buf`, the
`buffer_size_needs_change` flag `sizeFlag`, the derived front-face flag
`frontCw` (`true` = `FrontFace::Cw`) and the picking id `nid`.
Mesh, material and animation payloads, which the modelled operations only
carry along, are omitted. -/
inductive SceneNode : Type where
  | container (instances : List (Instance × Instance)) (children : SceneForest)
  | model (instances : List (Instance × Instance)) (buf : ℕ) (sizeFlag : Bool)
      (frontCw : Bool) (nid : ℕ) (children : SceneForest)
deriving DecidableEq, Repr

inductive SceneForest : Type where
  | nil : SceneForest
  | cons (head : SceneNode) (tail : SceneForest) : SceneForest
deriving DecidableEq, Repr
end

/-- The node's `instances` vector of `(local, world)` pairs. -/
def SceneNode.instancesOf : SceneNode → List (Instance × Instance)
  | .container insts _ => insts
  | .model insts _ _ _ _ _ => insts

/-- The node's `children` vector. -/
def SceneNode.childrenOf : SceneNode → SceneForest
  | .container _ cs => cs
  | .model _ _ _ _ _ cs => cs

/-- The node's `buffer_size_needs_change` flag (`ContainerNode` has none;
read as `false`). -/
def SceneNode.sizeFlagOf : SceneNode → Bool
  | .container _ _ => false
  | .model _ _ flag _ _ _ => flag

/-- In-place update of the slice `instances[range]` performed by
`update_world_transforms`: `iter_mut().zip(parents).map(|((local, world), parent)|
{ *world = parent * local; parent * local })`. `zip` stops at the shorter of
the slice and the parent vector; pairs beyond it are untouched. -/
def sliceUpd (slice : List (Instance × Instance)) (pw : List Instance) :
    List (Instance × Instance) :=
  (slice.zip pw).map (fun p => (p.1.1, Instance.mulRef p.2 p.1.1)) ++
    slice.drop pw.length

/-- The `world_transforms` vector collected by the same `map`, handed to the
children as their new parent transforms. -/
def sliceWorlds (slice : List (Instance × Instance)) (pw : List Instance) :
    List Instance :=
  (slice.zip pw).map (fun p => Instance.mulRef p.2 p.1.1)

/-- The full `instances` vector after the in-place slice update. -/
def updInsts (insts : List (Instance × Instance)) (s e : ℕ)
    (pw : List Instance) : List (Instance × Instance) :=
  insts.take s ++ sliceUpd ((insts.drop s).take (e - s)) pw ++ insts.drop e

mutual
/-- Embeds `update_world_transforms(range, parents_world_transform)` for both node
variants (their bodies are identical): bail out if the parent vector is longer
than `instances` or `instances.get(range)` is `None` (i.e. unless
`range.start ≤ range.end ≤ instances.len()`); otherwise update the slice in
place and recurse into every child with the same range and the collected
world transforms. Logging is not modelled. -/
def SceneNode.updateWorldTransforms :
    SceneNode → ℕ → ℕ → List Instance → SceneNode
  | .container insts cs, s, e, pw =>
    if pw.length > insts.length then .container insts cs
    else if ¬ (s ≤ e ∧ e ≤ insts.length) then .container insts cs
    else .container (updInsts insts s e pw)
      (cs.updateWorldTransforms s e (sliceWorlds ((insts.drop s).take (e - s)) pw))
  | .model insts buf flag fc nid cs, s, e, pw =>
    if pw.length > insts.length then .model insts buf flag fc nid cs
    else if ¬ (s ≤ e ∧ e ≤ insts.length) then .model insts buf flag fc nid cs
    else .model (updInsts insts s e pw) buf flag fc nid
      (cs.updateWorldTransforms s e (sliceWorlds ((insts.drop s).take (e - s)) pw))

def SceneForest.updateWorldTransforms :
    SceneForest → ℕ → ℕ → List Instance → SceneForest
  | .nil, _, _, _ => .nil
  | .cons n f, s, e, pw =>
    .cons (n.updateWorldTransforms s e pw) (f.updateWorldTransforms s e pw)
end

/-- C3: if the parent world-transform vector is longer than the node's
instance list, or the range is out of bounds for the node's instances, then
`update_world_transforms` returns without mutating any instance of the node
or of its descendants, and does not panic (the function is total and returns
the tree unchanged; the logged warning is a side effect outside the model). -/
theorem claim_C3 (n : SceneNode) (s e : ℕ) (pw : List Instance)
    (h : pw.length > n.instancesOf.length ∨
      ¬ (s ≤ e ∧ e ≤ n.instancesOf.length)) :
    n.updateWorldTransforms s e pw = n := by
  cases n with
  | container insts cs =>
    simp only [SceneNode.instancesOf] at h
    by_cases h1 : pw.length > insts.length
    · simp only [SceneNode.updateWorldTransforms]
      rw [if_pos h1]
    · rcases h with h | h2
      · exact absurd h h1
      · simp only [SceneNode.updateWorldTransforms]
        rw [if_neg h1, if_pos h2]
  | model insts buf flag fc nid cs =>
    simp only [SceneNode.instancesOf] at h
    by_cases h1 : pw.length > insts.length
    · simp only [SceneNode.updateWorldTransforms]
      rw [if_pos h1]
    · rcases h with h | h2
      · exact absurd h h1
      · simp only [SceneNode.updateWorldTransforms]
        rw [if_neg h1, if_pos h2]

/-- Witness for C3 at a concrete input: a container with one instance, the
out-of-bounds range `0..2` and an empty parent vector is returned unchanged. -/
theorem claim_C3_witness :
    (¬ (0 ≤ 2 ∧ 2 ≤ (SceneNode.container [(Instance.new, Instance.new)]
        SceneForest.nil).instancesOf.length)) ∧
    (SceneNode.container [(Instance.new, Instance.new)]
        SceneForest.nil).updateWorldTransforms 0 2 [] =
      SceneNode.container [(Instance.new, Instance.new)] SceneForest.nil :=
  ⟨by decide,
   claim_C3 (SceneNode.container [(Instance.new, Instance.new)] SceneForest.nil)
     0 2 [] (Or.inr (by decide))⟩

lemma sliceUpd_eq_map (insts : List (Instance × Instance)) (s e : ℕ)
    (pw : List Instance) (h3 : e ≤ insts.length) (h4 : e - s ≤ pw.length) :
    sliceUpd ((insts.drop s).take (e - s)) pw =
      (((insts.drop s).take (e - s)).zip pw).map
        (fun p => (p.1.1, Instance.mulRef p.2 p.1.1)) := by
  have hlen : ((insts.drop s).take (e - s)).length = e - s := by
    simp only [List.length_take, List.length_drop]
    omega
  have hnil : ((insts.drop s).take (e - s)).drop pw.length =
      ([] : List (Instance × Instance)) :=
    List.drop_eq_nil_of_le (by rw [hlen]; omega)
  unfold sliceUpd
  rw [hnil, List.append_nil]

lemma slice_zip_length (insts : List (Instance × Instance)) (s e : ℕ)
    (pw : List Instance) (h3 : e ≤ insts.length) (h4 : e - s ≤ pw.length) :
    (((insts.drop s).take (e - s)).zip pw).length = e - s := by
  simp only [List.length_zip, List.length_take, List.length_drop]
  omega

lemma updInsts_length (insts : List (Instance × Instance)) (s e : ℕ)
    (pw : List Instance) (h2 : s ≤ e) (h3 : e ≤ insts.length)
    (h4 : e - s ≤ pw.length) :
    (updInsts insts s e pw).length = insts.length := by
  unfold updInsts
  rw [sliceUpd_eq_map insts s e pw h3 h4]
  simp only [List.length_append, List.length_take, List.length_map,
    List.length_zip, List.length_drop]
  omega

lemma updInsts_getElem_lo (insts : List (Instance × Instance)) (s e i : ℕ)
    (pw : List Instance) (hi : i < s) (hs : s ≤ insts.length) :
    (updInsts insts s e pw)[i]? = insts[i]? := by
  unfold updInsts
  have hA : i < (insts.take s).length := by
    simp only [List.length_take]
    omega
  have hAB : i <
      (insts.take s ++ sliceUpd ((insts.drop s).take (e - s)) pw).length := by
    simp only [List.length_append]
    omega
  rw [List.getElem?_append_left hAB, List.getElem?_append_left hA,
    List.getElem?_take_of_lt hi]

lemma updInsts_getElem_hi (insts : List (Instance × Instance)) (s e i : ℕ)
    (pw : List Instance) (h2 : s ≤ e) (h3 : e ≤ insts.length)
    (h4 : e - s ≤ pw.length) (hi : e ≤ i) :
    (updInsts insts s e pw)[i]? = insts[i]? := by
  unfold updInsts
  rw [sliceUpd_eq_map insts s e pw h3 h4]
  have hA : (insts.take s).length = s := by
    simp only [List.length_take]
    omega
  have hB : ((((insts.drop s).take (e - s)).zip pw).map
      (fun p => (p.1.1, Instance.mulRef p.2 p.1.1))).length = e - s := by
    rw [List.length_map]
    exact slice_zip_length insts s e pw h3 h4
  have hab : (insts.take s ++ (((insts.drop s).take (e - s)).zip pw).map
      (fun p => (p.1.1, Instance.mulRef p.2 p.1.1))).length = e := by
    rw [List.length_append, hA, hB]
    omega
  have hle : (insts.take s ++ (((insts.drop s).take (e - s)).zip pw).map
      (fun p => (p.1.1, Instance.mulRef p.2 p.1.1))).length ≤ i := by
    rw [hab]
    exact hi
  rw [List.getElem?_append_right hle, List.getElem?_drop]
  have hidx : e + (i - (insts.take s ++ (((insts.drop s).take (e - s)).zip
      pw).map (fun p => (p.1.1, Instance.mulRef p.2 p.1.1))).length) = i := by
    rw [hab]
    omega
  rw [hidx]

lemma updInsts_getElem_mid (insts : List (Instance × Instance)) (s e i : ℕ)
    (pw : List Instance) (h3 : e ≤ insts.length) (h4 : e - s ≤ pw.length)
    (hs : s ≤ i) (he : i < e) (hlt : i - s < pw.length)
    (hv : i < insts.length) :
    (updInsts insts s e pw)[i]? =
      some ((insts.get ⟨i, hv⟩).1,
        Instance.mulRef (pw.get ⟨i - s, hlt⟩) (insts.get ⟨i, hv⟩).1) := by
  unfold updInsts
  rw [sliceUpd_eq_map insts s e pw h3 h4]
  have hA : (insts.take s).length = s := by
    simp only [List.length_take]
    omega
  have hB : ((((insts.drop s).take (e - s)).zip pw).map
      (fun p => (p.1.1, Instance.mulRef p.2 p.1.1))).length = e - s := by
    rw [List.length_map]
    exact slice_zip_length insts s e pw h3 h4
  have hiAB : i < (insts.take s ++ (((insts.drop s).take (e - s)).zip pw).map
      (fun p => (p.1.1, Instance.mulRef p.2 p.1.1))).length := by
    rw [List.length_append, hA, hB]
    omega
  rw [List.getElem?_append_left hiAB]
  have hsA : (insts.take s).length ≤ i := by
    rw [hA]
    exact hs
  rw [List.getElem?_append_right hsA, hA]
  have hzi : i - s < (((insts.drop s).take (e - s)).zip pw).length := by
    rw [slice_zip_length insts s e pw h3 h4]
    omega
  rw [List.getElem?_map, List.getElem?_eq_getElem hzi, List.getElem_zip]
  simp only [Option.map_some', List.getElem_take, List.getElem_drop,
    List.get_eq_getElem]
  have hidx : s + (i - s) = i := by omega
  simp only [hidx]

lemma sliceWorlds_length (insts : List (Instance × Instance)) (s e : ℕ)
    (pw : List Instance) (h3 : e ≤ insts.length) (h4 : e - s ≤ pw.length) :
    (sliceWorlds ((insts.drop s).take (e - s)) pw).length = e - s := by
  unfold sliceWorlds
  rw [List.length_map, slice_zip_length insts s e pw h3 h4]

lemma sliceWorlds_getElem (insts : List (Instance × Instance)) (s e : ℕ)
    (pw : List Instance) (h3 : e ≤ insts.length) (h4 : e - s ≤ pw.length)
    (j : ℕ) (hj : j < e - s) (hjp : j < pw.length)
    (hjv : s + j < insts.length) :
    (sliceWorlds ((insts.drop s).take (e - s)) pw)[j]? =
      some (Instance.mulRef (pw.get ⟨j, hjp⟩)
        ((insts.get ⟨s + j, hjv⟩).1)) := by
  unfold sliceWorlds
  have hB := slice_zip_length insts s e pw h3 h4
  have hzj : j < (((insts.drop s).take (e - s)).zip pw).length := by omega
  rw [List.getElem?_map, List.getElem?_eq_getElem hzj, List.getElem_zip]
  simp only [Option.map_some', List.getElem_take, List.getElem_drop,
    List.get_eq_getElem]

/-- C1 as literally stated (the slot-update part): whenever the two in-code
precondition checks pass, every slot `i` in the range is set to
`parent_world[i - range.start] * local[i]` — in particular the claim asserts
that index `i - range.start` exists in `parent_world`. -/
def claimC1SlotPart (n : SceneNode) (s e : ℕ) (pw : List Instance) : Prop :=
  (pw.length ≤ n.instancesOf.length ∧ s ≤ e ∧ e ≤ n.instancesOf.length) →
    ∀ i, s ≤ i → i < e →
      ∃ hlt : i - s < pw.length,
        ((n.updateWorldTransforms s e pw).instancesOf[i]?).map Prod.snd =
          some (Instance.mulRef (pw.get ⟨i - s, hlt⟩)
            (((n.instancesOf[i]?).map Prod.fst).getD Instance.new))

/-- Counterexample to C1 as stated: a node with two instances, range `0..2`
and a one-element parent vector passes both precondition checks, yet slot 1
cannot be (and is not) updated from `parent_world[1]`, which does not exist —
`zip` silently truncates the update to the first slot. -/
theorem claim_C1_counterexample :
    ¬ claimC1SlotPart
      (SceneNode.container
        [(Instance.new, Instance.new), (Instance.new, Instance.new)]
        SceneForest.nil) 0 2
      [⟨⟨1, 0, 0⟩, ⟨1, ⟨0, 0, 0⟩⟩, ⟨1, 1, 1⟩⟩] := by
  intro h
  obtain ⟨hlt, _⟩ := h (by decide) 1 (by decide) (by decide)
  exact absurd hlt (by decide)

/-- C1 amended: additionally require the parent world-transform vector to be
at least as long as the range (the "matching `range` size" the in-code doc
comment asks for). Then every slot `i` in the range is set to
`parent_world[i - range.start] * local[i]` (the local transform is kept),
slots outside the range are unchanged, and the node recurses into its
children with the same range and the just-computed world-transform slice
`W` (`W[j] = parent_world[j] * local[range.start + j]`) as the new parent
vector. -/
theorem claim_C1_amended (n : SceneNode) (s e : ℕ) (pw : List Instance)
    (h1 : pw.length ≤ n.instancesOf.length) (h2 : s ≤ e)
    (h3 : e ≤ n.instancesOf.length) (h4 : e - s ≤ pw.length) :
    (∀ i, s ≤ i → i < e →
      ∀ (hlt : i - s < pw.length) (hv : i < n.instancesOf.length),
        (n.updateWorldTransforms s e pw).instancesOf[i]? =
          some ((n.instancesOf.get ⟨i, hv⟩).1,
            Instance.mulRef (pw.get ⟨i - s, hlt⟩)
              (n.instancesOf.get ⟨i, hv⟩).1)) ∧
    (∀ i, i < s ∨ e ≤ i →
      (n.updateWorldTransforms s e pw).instancesOf[i]? =
        n.instancesOf[i]?) ∧
    (∃ W : List Instance, W.length = e - s ∧
      (∀ j, j < e - s →
        ∀ (hjp : j < pw.length) (hjv : s + j < n.instancesOf.length),
          W[j]? = some (Instance.mulRef (pw.get ⟨j, hjp⟩)
            ((n.instancesOf.get ⟨s + j, hjv⟩).1))) ∧
      (n.updateWorldTransforms s e pw).childrenOf =
        n.childrenOf.updateWorldTransforms s e W) := by
  cases n with
  | container insts cs =>
    simp only [SceneNode.instancesOf] at h1 h3 ⊢
    have hne : ¬ pw.length > insts.length := by omega
    simp only [SceneNode.updateWorldTransforms]
    rw [if_neg hne, if_neg (not_not_intro ⟨h2, h3⟩)]
    refine ⟨?_, ?_, ?_⟩
    · intro i his hie hlt hv
      simp only [SceneNode.instancesOf]
      exact updInsts_getElem_mid insts s e i pw h3 h4 his hie hlt hv
    · intro i hi
      simp only [SceneNode.instancesOf]
      rcases hi with hi | hi
      · exact updInsts_getElem_lo insts s e i pw hi (by omega)
      · exact updInsts_getElem_hi insts s e i pw h2 h3 h4 hi
    · refine ⟨sliceWorlds ((insts.drop s).take (e - s)) pw,
        sliceWorlds_length insts s e pw h3 h4, ?_, ?_⟩
      · intro j hj hjp hjv
        exact sliceWorlds_getElem insts s e pw h3 h4 j hj hjp hjv
      · simp only [SceneNode.childrenOf]
  | model insts buf flag fc nid cs =>
    simp only [SceneNode.instancesOf] at h1 h3 ⊢
    have hne : ¬ pw.length > insts.length := by omega
    simp only [SceneNode.updateWorldTransforms]
    rw [if_neg hne, if_neg (not_not_intro ⟨h2, h3⟩)]
    refine ⟨?_, ?_, ?_⟩
    · intro i his hie hlt hv
      simp only [SceneNode.instancesOf]
      exact updInsts_getElem_mid insts s e i pw h3 h4 his hie hlt hv
    · intro i hi
      simp only [SceneNode.instancesOf]
      rcases hi with hi | hi
      · exact updInsts_getElem_lo insts s e i pw hi (by omega)
      · exact updInsts_getElem_hi insts s e i pw h2 h3 h4 hi
    · refine ⟨sliceWorlds ((insts.drop s).take (e - s)) pw,
        sliceWorlds_length insts s e pw h3 h4, ?_, ?_⟩
      · intro j hj hjp hjv
        exact sliceWorlds_getElem insts s e pw h3 h4 j hj hjp hjv
      · simp only [SceneNode.childrenOf]

mutual
/-- Embeds `add_instance(instance)` for both variants: push
`(instance, instance.clone())`, recurse into every child with
`Instance::default()`, set the dirty-size flag on a `ModelNode` (no flag
exists on a `ContainerNode`), and return `instances.len() - 1`, the index of
the added instance. -/
def SceneNode.addInstance : Instance → SceneNode → SceneNode × ℕ
  | inst, .container insts cs =>
    (.container (insts ++ [(inst, inst)]) cs.addDefaultInstance,
      (insts ++ [(inst, inst)]).length - 1)
  | inst, .model insts buf _flag fc nid cs =>
    (.model (insts ++ [(inst, inst)]) buf true fc nid cs.addDefaultInstance,
      (insts ++ [(inst, inst)]).length - 1)

/-- The children loop of `add_instance`:
`child.add_instance(Instance::default())` for every child. -/
def SceneForest.addDefaultInstance : SceneForest → SceneForest
  | .nil => .nil
  | .cons n f => .cons (n.addInstance Instance.new).1 f.addDefaultInstance
end

mutual
/-- Embeds `add_instances(instances)` for both variants: append
`instances.into_iter().zip(cloned)` pairs, recurse into every child with
`(0..len).map(|_| Instance::default())`, set the dirty-size flag on a
`ModelNode`, and return `instances.len() - 1`. -/
def SceneNode.addInstances : List Instance → SceneNode → SceneNode × ℕ
  | l, .container insts cs =>
    (.container (insts ++ l.zip l) (cs.addDefaultInstances l.length),
      (insts ++ l.zip l).length - 1)
  | l, .model insts buf _flag fc nid cs =>
    (.model (insts ++ l.zip l) buf true fc nid
      (cs.addDefaultInstances l.length),
      (insts ++ l.zip l).length - 1)

/-- The children loop of `add_instances`: every child receives `k` default
instances. -/
def SceneForest.addDefaultInstances : SceneForest → ℕ → SceneForest
  | .nil, _ => .nil
  | .cons n f, k =>
    .cons (n.addInstances (List.replicate k Instance.new)).1
      (f.addDefaultInstances k)
end

mutual
/-- Embeds `remove_instance(idx)` for both variants: recurse into every child first,
then `self.instances.remove(idx)` (and set the dirty-size flag on a
`ModelNode`). `Vec::remove` panics when `idx` is out of bounds — modelled by
`none`; there is no bounds check or warning in the source. -/
def SceneNode.removeInstance : ℕ → SceneNode → Option (SceneNode × (Instance × Instance))
  | idx, .container insts cs =>
    match cs.removeInstanceAll idx with
    | none => none
    | some cs2 =>
      if h : idx < insts.length then
        some (.container (insts.eraseIdx idx) cs2, insts.get ⟨idx, h⟩)
      else none
  | idx, .model insts buf _flag fc nid cs =>
    match cs.removeInstanceAll idx with
    | none => none
    | some cs2 =>
      if h : idx < insts.length then
        some (.model (insts.eraseIdx idx) buf true fc nid cs2,
          insts.get ⟨idx, h⟩)
      else none

/-- The children loop of `remove_instance`. -/
def SceneForest.removeInstanceAll : ℕ → SceneForest → Option SceneForest
  | _, .nil => some .nil
  | idx, .cons n f =>
    match n.removeInstance idx, f.removeInstanceAll idx with
    | some p, some f2 => some (.cons p.1 f2)
    | _, _ => none
end

mutual
/-- Embeds `clone_instance(i)` for both variants: push a copy of `instances[i]`
(indexing panics when `i` is out of bounds — modelled by `none`; no bounds
check or warning exists in the source), recurse into every child, set the
dirty-size flag on a `ModelNode`. `ContainerNode` returns
`self.instances.len()` (measured after the push), `ModelNode` returns
`self.instances.len() - 1`. -/
def SceneNode.cloneInstance : ℕ → SceneNode → Option (SceneNode × ℕ)
  | i, .container insts cs =>
    if h : i < insts.length then
      match cs.cloneInstanceAll i with
      | none => none
      | some cs2 =>
        some (.container (insts ++ [insts.get ⟨i, h⟩]) cs2,
          (insts ++ [insts.get ⟨i, h⟩]).length)
    else none
  | i, .model insts buf _flag fc nid cs =>
    if h : i < insts.length then
      match cs.cloneInstanceAll i with
      | none => none
      | some cs2 =>
        some (.model (insts ++ [insts.get ⟨i, h⟩]) buf true fc nid cs2,
          (insts ++ [insts.get ⟨i, h⟩]).length - 1)
    else none

/-- The children loop of `clone_instance`. -/
def SceneForest.cloneInstanceAll : ℕ → SceneForest → Option SceneForest
  | _, .nil => some .nil
  | i, .cons n f =>
    match n.cloneInstance i, f.cloneInstanceAll i with
    | some p, some f2 => some (.cons p.1 f2)
    | _, _ => none
end

mutual
/-- Embeds `write_to_buffers(queue, device)`. For a `ModelNode`: recompute the
front-face flag from the determinant sign of the first instance's world
matrix (`Cw` iff `signum < 0`; unchanged when there are no instances); if the
dirty-size flag is set, recreate the buffer at the new size (`buf :=
instances.len()`) and clear the flag, otherwise write in place (buffer size
unchanged); then recurse into the children. A `ContainerNode` only recurses.
The second component records, for each `ModelNode` in traversal order,
whether the reallocation path was taken. -/
def SceneNode.writeToBuffers : SceneNode → SceneNode × List Bool
  | .container insts cs =>
    let r := cs.writeToBuffersAll
    (.container insts r.1, r.2)
  | .model insts buf flag fc nid cs =>
    let fc2 : Bool :=
      match insts.head? with
      | some p => decide (p.2.toMatrix.det < 0)
      | none => fc
    let bs : ℕ × Bool := if flag then (insts.length, false) else (buf, flag)
    let r := cs.writeToBuffersAll
    (.model insts bs.1 bs.2 fc2 nid r.1, flag :: r.2)

/-- The children loop of `write_to_buffers`. -/
def SceneForest.writeToBuffersAll : SceneForest → SceneForest × List Bool
  | .nil => (.nil, [])
  | .cons n f =>
    let rn := n.writeToBuffers
    let rf := f.writeToBuffersAll
    (.cons rn.1 rf.1, rn.2 ++ rf.2)
end

mutual
/-- The instance vectors of all nodes of a subtree, root first. -/
def SceneNode.instLists : SceneNode → List (List (Instance × Instance))
  | .container insts cs => insts :: cs.instListsAll
  | .model insts _ _ _ _ cs => insts :: cs.instListsAll

/-- The instance vectors of all nodes of a forest. -/
def SceneForest.instListsAll : SceneForest → List (List (Instance × Instance))
  | .nil => []
  | .cons n f => n.instLists ++ f.instListsAll
end

mutual
/-- The `buffer_size_needs_change` flags of all `ModelNode`s of a subtree, in
traversal order. -/
def SceneNode.modelFlags : SceneNode → List Bool
  | .container _ cs => cs.modelFlagsAll
  | .model _ _ flag _ _ cs => flag :: cs.modelFlagsAll

/-- The `buffer_size_needs_change` flags of all `ModelNode`s of a forest. -/
def SceneForest.modelFlagsAll : SceneForest → List Bool
  | .nil => []
  | .cons n f => n.modelFlags ++ f.modelFlagsAll
end

/-- The index-alignment invariant: every node of the subtree has exactly `k`
instances. -/
def SceneNode.uniformLen (n : SceneNode) (k : ℕ) : Bool :=
  n.instLists.all (fun l => l.length == k)

lemma SceneNode.instLists_eq (n : SceneNode) :
    n.instLists = n.instancesOf :: n.childrenOf.instListsAll := by
  cases n <;> rfl

mutual
theorem addInstance_instLists (n : SceneNode) (inst : Instance) :
    (n.addInstance inst).1.instLists =
      (n.instancesOf ++ [(inst, inst)]) ::
        n.childrenOf.instListsAll.map
          (fun il => il ++ [(Instance.new, Instance.new)]) :=
  match n with
  | .container insts cs => by
    simp only [SceneNode.addInstance, SceneNode.instLists,
      SceneNode.instancesOf, SceneNode.childrenOf,
      addDefaultInstance_instLists cs]
  | .model insts buf flag fc nid cs => by
    simp only [SceneNode.addInstance, SceneNode.instLists,
      SceneNode.instancesOf, SceneNode.childrenOf,
      addDefaultInstance_instLists cs]

theorem addDefaultInstance_instLists (f : SceneForest) :
    f.addDefaultInstance.instListsAll =
      f.instListsAll.map (fun il => il ++ [(Instance.new, Instance.new)]) :=
  match f with
  | .nil => rfl
  | .cons n f => by
    simp only [SceneForest.addDefaultInstance, SceneForest.instListsAll,
      addInstance_instLists n Instance.new, addDefaultInstance_instLists f,
      List.map_append, SceneNode.instLists_eq n, List.map_cons]
end

mutual
theorem addInstances_instLists (n : SceneNode) (l : List Instance) :
    (n.addInstances l).1.instLists =
      (n.instancesOf ++ l.zip l) ::
        n.childrenOf.instListsAll.map
          (fun il => il ++ List.replicate l.length (Instance.new, Instance.new)) :=
  match n with
  | .container insts cs => by
    simp only [SceneNode.addInstances, SceneNode.instLists,
      SceneNode.instancesOf, SceneNode.childrenOf,
      addDefaultInstances_instLists cs l.length]
  | .model insts buf flag fc nid cs => by
    simp only [SceneNode.addInstances, SceneNode.instLists,
      SceneNode.instancesOf, SceneNode.childrenOf,
      addDefaultInstances_instLists cs l.length]

theorem addDefaultInstances_instLists (f : SceneForest) (k : ℕ) :
    (f.addDefaultInstances k).instListsAll =
      f.instListsAll.map
        (fun il => il ++ List.replicate k (Instance.new, Instance.new)) :=
  match f with
  | .nil => rfl
  | .cons n f => by
    simp only [SceneForest.addDefaultInstances, SceneForest.instListsAll,
      addInstances_instLists n (List.replicate k Instance.new),
      addDefaultInstances_instLists f k, List.map_append,
      SceneNode.instLists_eq n, List.map_cons, List.zip_replicate',
      List.length_replicate]
end

/-- C6: on a tree whose nodes all have `k` instances, `add_instance` appends
the given instance as a `(local, world)` pair to the root and a
default-identity pair to every descendant (the tail of `instLists` lists the
instance vectors of all descendants), and every node ends up with `k + 1`
instances; `add_instances` with a list of `m` instances appends the `m`
`(instance, clone)` pairs to the root, `m` default-identity pairs to every
descendant, and every node ends up with `k + m` instances. -/
theorem claim_C6 (n : SceneNode) (inst : Instance) (l : List Instance) (k : ℕ)
    (h : n.uniformLen k = true) :
    ((n.addInstance inst).1.instLists =
      (n.instancesOf ++ [(inst, inst)]) ::
        n.childrenOf.instListsAll.map
          (fun il => il ++ [(Instance.new, Instance.new)])) ∧
    (n.addInstance inst).1.uniformLen (k + 1) = true ∧
    ((n.addInstances l).1.instLists =
      (n.instancesOf ++ l.zip l) ::
        n.childrenOf.instListsAll.map
          (fun il => il ++ List.replicate l.length (Instance.new, Instance.new))) ∧
    (n.addInstances l).1.uniformLen (k + l.length) = true := by
  simp only [SceneNode.uniformLen, List.all_eq_true, beq_iff_eq] at h
  have hroot : n.instancesOf.length = k := by
    apply h
    rw [SceneNode.instLists_eq]
    exact List.mem_cons_self _ _
  have hdesc : ∀ il ∈ n.childrenOf.instListsAll, il.length = k := by
    intro il hil
    apply h
    rw [SceneNode.instLists_eq]
    exact List.mem_cons_of_mem _ hil
  refine ⟨addInstance_instLists n inst, ?_, addInstances_instLists n l, ?_⟩
  · simp only [SceneNode.uniformLen, List.all_eq_true, beq_iff_eq,
      addInstance_instLists n inst, List.mem_cons, List.mem_map]
    rintro x (rfl | ⟨il, hil, rfl⟩)
    · simp only [List.length_append, List.length_cons, List.length_nil, hroot]
    · simp only [List.length_append, List.length_cons, List.length_nil,
        hdesc il hil]
  · simp only [SceneNode.uniformLen, List.all_eq_true, beq_iff_eq,
      addInstances_instLists n l, List.mem_cons, List.mem_map]
    rintro x (rfl | ⟨il, hil, rfl⟩)
    · rw [List.length_append, hroot, List.length_zip, Nat.min_self]
    · rw [List.length_append, hdesc il hil, List.length_replicate]

/-- Witness for C6 at a concrete input: a two-level tree (container root with
one model child), one instance everywhere; adding one instance and adding two
instances keep the lengths aligned. -/
theorem claim_C6_witness :
    ((SceneNode.container [(Instance.new, Instance.new)]
        (SceneForest.cons
          (SceneNode.model [(Instance.new, Instance.new)] 1 false false 7
            SceneForest.nil)
          SceneForest.nil)).uniformLen 1 = true) ∧
    (((SceneNode.container [(Instance.new, Instance.new)]
        (SceneForest.cons
          (SceneNode.model [(Instance.new, Instance.new)] 1 false false 7
            SceneForest.nil)
          SceneForest.nil)).addInstance Instance.new).1.uniformLen 2 = true) ∧
    (((SceneNode.container [(Instance.new, Instance.new)]
        (SceneForest.cons
          (SceneNode.model [(Instance.new, Instance.new)] 1 false false 7
            SceneForest.nil)
          SceneForest.nil)).addInstances
        [Instance.new, Instance.new]).1.uniformLen 3 = true) := by
  refine ⟨by decide, ?_, ?_⟩
  · exact (claim_C6 (SceneNode.container [(Instance.new, Instance.new)]
      (SceneForest.cons
        (SceneNode.model [(Instance.new, Instance.new)] 1 false false 7
          SceneForest.nil)
        SceneForest.nil)) Instance.new [] 1 (by decide)).2.1
  · have := (claim_C6 (SceneNode.container [(Instance.new, Instance.new)]
      (SceneForest.cons
        (SceneNode.model [(Instance.new, Instance.new)] 1 false false 7
          SceneForest.nil)
        SceneForest.nil)) Instance.new [Instance.new, Instance.new] 1
      (by decide)).2.2.2
    simpa using this

mutual
theorem writeToBuffers_paths (n : SceneNode) :
    n.writeToBuffers.2 = n.modelFlags :=
  match n with
  | .container insts cs => by
    simp only [SceneNode.writeToBuffers, SceneNode.modelFlags,
      writeToBuffersAll_paths cs]
  | .model insts buf flag fc nid cs => by
    simp only [SceneNode.writeToBuffers, SceneNode.modelFlags,
      writeToBuffersAll_paths cs]

theorem writeToBuffersAll_paths (f : SceneForest) :
    f.writeToBuffersAll.2 = f.modelFlagsAll :=
  match f with
  | .nil => rfl
  | .cons n f => by
    simp only [SceneForest.writeToBuffersAll, SceneForest.modelFlagsAll,
      writeToBuffers_paths n, writeToBuffersAll_paths f]
end

mutual
theorem writeToBuffers_clears (n : SceneNode) :
    n.writeToBuffers.1.modelFlags = n.modelFlags.map (fun _ => false) :=
  match n with
  | .container insts cs => by
    simp only [SceneNode.writeToBuffers, SceneNode.modelFlags,
      writeToBuffersAll_clears cs]
  | .model insts buf flag fc nid cs => by
    simp only [SceneNode.writeToBuffers, SceneNode.modelFlags,
      writeToBuffersAll_clears cs, List.map_cons]
    cases flag <;> rfl

theorem writeToBuffersAll_clears (f : SceneForest) :
    f.writeToBuffersAll.1.modelFlagsAll =
      f.modelFlagsAll.map (fun _ => false) :=
  match f with
  | .nil => rfl
  | .cons n f => by
    simp only [SceneForest.writeToBuffersAll, SceneForest.modelFlagsAll,
      writeToBuffers_clears n, writeToBuffersAll_clears f, List.map_append]
end

/-- C7: `add_instance` on a `ModelNode` sets the `buffer_size_needs_change`
flag; `write_to_buffers` takes the buffer-reallocation path at exactly the
`ModelNode`s whose flag is set (second conjunct: the recorded realloc paths
are the flags), and afterwards every flag in the subtree is `false` (third
conjunct), so a second `write_to_buffers` with no intervening mutation takes
the in-place path everywhere (fourth conjunct: all recorded paths `false`). -/
theorem claim_C7 :
    (∀ (insts : List (Instance × Instance)) (buf : ℕ) (flag fc : Bool)
      (nid : ℕ) (cs : SceneForest) (inst : Instance),
      ((SceneNode.model insts buf flag fc nid cs).addInstance
        inst).1.sizeFlagOf = true) ∧
    (∀ n : SceneNode, n.writeToBuffers.2 = n.modelFlags) ∧
    (∀ n : SceneNode, n.writeToBuffers.1.modelFlags =
      n.modelFlags.map (fun _ => false)) ∧
    (∀ n : SceneNode, n.writeToBuffers.1.writeToBuffers.2 =
      n.modelFlags.map (fun _ => false)) := by
  refine ⟨fun insts buf flag fc nid cs inst => rfl,
    writeToBuffers_paths, writeToBuffers_clears, fun n => ?_⟩
  rw [writeToBuffers_paths, writeToBuffers_clears]

lemma uniformLen_root (n : SceneNode) (k : ℕ) (h : n.uniformLen k = true) :
    n.instancesOf.length = k := by
  simp only [SceneNode.uniformLen, List.all_eq_true, beq_iff_eq] at h
  apply h
  rw [SceneNode.instLists_eq]
  exact List.mem_cons_self _ _

/-- Counterexample to C9 as stated: on a container with zero instances,
`remove_instance(0)` and `clone_instance(0)` do not skip the operation and
leave the node unchanged — `Vec::remove` respectively the `self.instances[i]`
indexing panic (modelled by `none`); no bounds check or warning exists in
either function. -/
theorem claim_C9_counterexample :
    SceneNode.removeInstance 0 (SceneNode.container [] SceneForest.nil) =
      none ∧
    SceneNode.cloneInstance 0 (SceneNode.container [] SceneForest.nil) =
      none := by
  exact ⟨rfl, rfl⟩

/-- C9 amended: for every scene node all of whose nodes have `k` instances
and every index `idx ≥ k`, `remove_instance(idx)` and `clone_instance(idx)`
panic (index out of bounds, modelled by `none`) instead of warning, skipping
and leaving the state unchanged. -/
theorem claim_C9_amended (n : SceneNode) (k idx : ℕ)
    (h : n.uniformLen k = true) (hk : k ≤ idx) :
    SceneNode.removeInstance idx n = none ∧
    SceneNode.cloneInstance idx n = none := by
  have hroot := uniformLen_root n k h
  cases n with
  | container insts cs =>
    simp only [SceneNode.instancesOf] at hroot
    have hlen : ¬ idx < insts.length := by omega
    constructor
    · simp only [SceneNode.removeInstance]
      cases SceneForest.removeInstanceAll idx cs with
      | none => rfl
      | some cs2 =>
        dsimp only
        rw [dif_neg hlen]
    · simp only [SceneNode.cloneInstance]
      rw [dif_neg hlen]
  | model insts buf flag fc nid cs =>
    simp only [SceneNode.instancesOf] at hroot
    have hlen : ¬ idx < insts.length := by omega
    constructor
    · simp only [SceneNode.removeInstance]
      cases SceneForest.removeInstanceAll idx cs with
      | none => rfl
      | some cs2 =>
        dsimp only
        rw [dif_neg hlen]
    · simp only [SceneNode.cloneInstance]
      rw [dif_neg hlen]

/-- Witness for C9 amended at a concrete input: a model node with one
instance, index 1. -/
theorem claim_C9_amended_witness :
    ((SceneNode.model [(Instance.new, Instance.new)] 1 false false 3
        SceneForest.nil).uniformLen 1 = true) ∧
    (SceneNode.removeInstance 1
      (SceneNode.model [(Instance.new, Instance.new)] 1 false false 3
        SceneForest.nil) = none ∧
    SceneNode.cloneInstance 1
      (SceneNode.model [(Instance.new, Instance.new)] 1 false false 3
        SceneForest.nil) = none) :=
  ⟨by decide,
   claim_C9_amended
     (SceneNode.model [(Instance.new, Instance.new)] 1 false false 3
       SceneForest.nil) 1 1 (by decide) (by decide)⟩

/-- C10 evaluated at the failing input: on a one-instance node,
`clone_instance(0)` appends a copy of the pair at index 0, but the
`ContainerNode` variant returns `instances.len()` measured after the push
(here 2), while the `ModelNode` variant returns `instances.len() - 1`
(here 1, the index of the new instance and the instance count before the
call); the two variants do not agree and the container's return value is not
the index of the newly created instance. -/
theorem claim_C10_theorem :
    (SceneNode.cloneInstance 0
      (SceneNode.container [(Instance.new, Instance.new)] SceneForest.nil) =
      some (SceneNode.container
        [(Instance.new, Instance.new), (Instance.new, Instance.new)]
        SceneForest.nil, 2)) ∧
    (SceneNode.cloneInstance 0
      (SceneNode.model [(Instance.new, Instance.new)] 1 false false 5
        SceneForest.nil) =
      some (SceneNode.model
        [(Instance.new, Instance.new), (Instance.new, Instance.new)] 1 true
        false 5 SceneForest.nil, 1)) := by
  exact ⟨by decide, by decide⟩

/-- Witness for C1 amended at a concrete input: one instance, range `0..1`,
one parent transform (a translation by `(1,0,0)`); slot 0 becomes
`parent * local`. -/
theorem claim_C1_amended_witness :
    ((SceneNode.container [(Instance.new, Instance.new)]
        SceneForest.nil).updateWorldTransforms 0 1
        [⟨⟨1, 0, 0⟩, ⟨1, ⟨0, 0, 0⟩⟩, ⟨1, 1, 1⟩⟩]).instancesOf[0]? =
      some (Instance.new,
        Instance.mulRef ⟨⟨1, 0, 0⟩, ⟨1, ⟨0, 0, 0⟩⟩, ⟨1, 1, 1⟩⟩ Instance.new) :=
  (claim_C1_amended
    (SceneNode.container [(Instance.new, Instance.new)] SceneForest.nil) 0 1
    [⟨⟨1, 0, 0⟩, ⟨1, ⟨0, 0, 0⟩⟩, ⟨1, 1, 1⟩⟩] (by decide) (by decide)
    (by decide) (by decide)).1 0 (by decide) (by decide) (by decide)
    (by decide)

/-- Embeds `Keyframes` from `resources/animation.rs`: one channel of one animation. -/
inductive Keyframes : Type where
  | translation (ts : List Vec3)
  | rotation (rs : List Quat)
  | scale (ss : List Vec3)
  | other
deriving DecidableEq, Repr

/-- Embeds `AnimationClip`: a named single-channel animation with timestamps. -/
structure AnimationClip where
  name : String
  keyframes : Keyframes
  timestamps : List ℚ
deriving DecidableEq, Repr

/-- Embeds `ModelAnimation`: the merged, channel-unified form. -/
structure ModelAnimation where
  name : String
  instances : List Instance
  timestamps : List ℚ
deriving DecidableEq, Repr

/-- Embeds `ModelState`: intermediate state of `merge`. -/
structure ModelState where
  animations : List ModelAnimation
  trans : List Vec3
  rots : List Quat
  scals : List Vec3
  timestamps : List ℚ
  currentClip : String
deriving DecidableEq, Repr

/-- The channel padding of `save_current_anim`:
`channel.append((len..max_len).filter_map(|_| channel.first()).cloned())` —
one copy of the first element per missing slot; an empty channel stays
empty (`first()` is `None`). -/
def padChannel {α : Type} (l : List α) (maxLen : ℕ) : List α :=
  l ++ (List.range (maxLen - l.length)).filterMap (fun _ => l.head?)

/-- The instance-building loop of `save_current_anim`:
`for i in 0..max_len` reads `trans[i]`, `rots[i]`, `scals[i]` — it panics
(modelled by `none`) unless every channel has at least `max_len` elements,
and otherwise collects the per-index `Instance`s. -/
def buildInstances (ts : List Vec3) (rs : List Quat) (ss : List Vec3)
    (maxLen : ℕ) : Option (List Instance) :=
  if maxLen ≤ ts.length ∧ maxLen ≤ rs.length ∧ maxLen ≤ ss.length then
    some ((List.range maxLen).map (fun i =>
      ⟨ts.getD i ⟨0, 0, 0⟩, rs.getD i ⟨1, ⟨0, 0, 0⟩⟩, ss.getD i ⟨1, 1, 1⟩⟩))
  else none

/-- Computes the `max_len` of `save_current_anim`: `t_len.max(r_len.max(s_len))`. -/
def chanMax (st : ModelState) : ℕ :=
  max st.trans.length (max st.rots.length st.scals.length)

/-- Embeds `save_current_anim(state, clip)`: if the channel lengths are not all
equal, pad each channel with copies of its first element up to the longest
length (and log a warning, not modelled); then build one `Instance` per index
`0..max_len` and emit a `ModelAnimation` carrying `clip.name` — the name of
the clip passed in, which at a group boundary is the first clip of the NEXT
group — and the accumulated timestamps. -/
def saveCurrentAnim (st : ModelState) (clip : AnimationClip) :
    Option ModelAnimation :=
  if st.trans.length ≠ st.rots.length ∨ st.rots.length ≠ st.scals.length then
    match buildInstances (padChannel st.trans (chanMax st))
      (padChannel st.rots (chanMax st)) (padChannel st.scals (chanMax st))
      (chanMax st) with
    | none => none
    | some insts => some ⟨clip.name, insts, st.timestamps⟩
  else
    match buildInstances st.trans st.rots st.scals (chanMax st) with
    | none => none
    | some insts => some ⟨clip.name, insts, st.timestamps⟩

/-- One iteration of the `for clip in clips` loop of `merge`: at a name
change, save the accumulated group (pushing the produced animation) and reset
the channel state; then push the clip's samples into the matching channel
(`Keyframes::Other` hits `todo!()` — modelled by `none`); finally keep the
longest timestamp vector seen. -/
def mergeStep (st : ModelState) (clip : AnimationClip) : Option ModelState :=
  let st1opt : Option ModelState :=
    if clip.name ≠ st.currentClip then
      match saveCurrentAnim st clip with
      | none => none
      | some a =>
        some ⟨st.animations ++ [a], [], [], [], [], clip.name⟩
    else some st
  match st1opt with
  | none => none
  | some st1 =>
    let st2opt : Option ModelState :=
      match clip.keyframes with
      | .translation l => some { st1 with trans := st1.trans ++ l }
      | .rotation l => some { st1 with rots := st1.rots ++ l }
      | .scale l => some { st1 with scals := st1.scals ++ l }
      | .other => none
    match st2opt with
    | none => none
    | some st2 =>
      some (if clip.timestamps.length > st2.timestamps.length then
        { st2 with timestamps := clip.timestamps } else st2)

/-- Embeds `merge(clips)`: initialise `current_clip` from the first clip
(`clips.first().unwrap()` panics on an empty list — modelled by `none`),
fold the loop body over all clips, then save the final group against
`clips.last()` and return the collected animations. -/
def merge (clips : List AnimationClip) : Option (List ModelAnimation) :=
  match clips.head? with
  | none => none
  | some c0 =>
    match clips.foldlM mergeStep ⟨[], [], [], [], [], c0.name⟩ with
    | none => none
    | some st =>
      match clips.getLast? with
      | none => none
      | some cl =>
        match saveCurrentAnim st cl with
        | none => none
        | some a => some (st.animations ++ [a])

/-- C2 evaluated at the failing input: two adjacent runs of clips, a
"walk" run (translation, rotation, scale, one sample each) followed by a
"run" run. `merge` emits one `ModelAnimation` per run, but the animation for
the "walk" run is named `"run"`: `save_current_anim` names the group after
the clip that triggered the boundary — the first clip of the NEXT run —
instead of `state.current_clip`, contradicting the claim (and the doc comment
of `merge`, which shows the merged animation keeping the group's name).
The second conjunct checks the claim's happy path, which does hold: three
single-channel "walk" clips with two samples each and equal timestamps merge
into exactly one `ModelAnimation` named `"walk"` with two `Instance`s. -/
theorem claim_C2_theorem :
    (merge
      [⟨"walk", Keyframes.translation [⟨0, 0, 0⟩], [0]⟩,
       ⟨"walk", Keyframes.rotation [⟨1, ⟨0, 0, 0⟩⟩], [0]⟩,
       ⟨"walk", Keyframes.scale [⟨1, 1, 1⟩], [0]⟩,
       ⟨"run", Keyframes.translation [⟨1, 0, 0⟩], [0]⟩,
       ⟨"run", Keyframes.rotation [⟨1, ⟨0, 0, 0⟩⟩], [0]⟩,
       ⟨"run", Keyframes.scale [⟨1, 1, 1⟩], [0]⟩]).map
      (fun l => l.map ModelAnimation.name) = some ["run", "run"] ∧
    merge
      [⟨"walk", Keyframes.translation [⟨0, 0, 0⟩, ⟨1, 0, 0⟩], [0, 1]⟩,
       ⟨"walk", Keyframes.rotation
         [⟨1, ⟨0, 0, 0⟩⟩, ⟨0, ⟨1, 0, 0⟩⟩], [0, 1]⟩,
       ⟨"walk", Keyframes.scale [⟨1, 1, 1⟩, ⟨2, 2, 2⟩], [0, 1]⟩] =
      some [⟨"walk",
        [⟨⟨0, 0, 0⟩, ⟨1, ⟨0, 0, 0⟩⟩, ⟨1, 1, 1⟩⟩,
         ⟨⟨1, 0, 0⟩, ⟨0, ⟨1, 0, 0⟩⟩, ⟨2, 2, 2⟩⟩], [0, 1]⟩] := by
  exact ⟨by decide, by decide⟩

/-- Counterexample to C4 as stated: a group whose rotation and scale channels
are empty (a single translation-only "walk" clip) has differing channel
lengths, but `save_current_anim` cannot pad an empty channel
(`first()` is `None`, so `filter_map` adds nothing) and the build loop then
panics on `state.rots[0]` (modelled by `none`) — no merged `ModelAnimation`
is produced. -/
theorem claim_C4_counterexample :
    saveCurrentAnim ⟨[], [⟨0, 0, 0⟩], [], [], [0], "walk"⟩
      ⟨"walk", Keyframes.translation [⟨0, 0, 0⟩], [0]⟩ = none ∧
    merge [⟨"walk", Keyframes.translation [⟨0, 0, 0⟩], [0]⟩] = none := by
  exact ⟨by decide, by decide⟩

lemma filterMap_const_some {α β : Type} (l : List α) (b : β) :
    l.filterMap (fun _ => some b) = List.replicate l.length b := by
  induction l with
  | nil => rfl
  | cons x l ih => simp [List.filterMap_cons, ih, List.replicate_succ]

lemma padChannel_eq {α : Type} (a : α) (l' : List α) (m : ℕ) :
    padChannel (a :: l') m =
      (a :: l') ++ List.replicate (m - (a :: l').length) a := by
  unfold padChannel
  simp only [List.head?_cons, filterMap_const_some, List.length_range]

lemma padChannel_length {α : Type} (l : List α) (m : ℕ) (h : l ≠ [])
    (hm : l.length ≤ m) : (padChannel l m).length = m := by
  obtain ⟨a, l', rfl⟩ := List.exists_cons_of_ne_nil h
  rw [padChannel_eq, List.length_append, List.length_replicate]
  omega

lemma padChannel_self {α : Type} (l : List α) :
    padChannel l l.length = l := by
  unfold padChannel
  rw [Nat.sub_self]
  simp

/-- C4 amended: provided every channel of the group has at least one sample,
`save_current_anim` pads the shorter channels by repeating their first sample
up to the longest channel's length and produces the merged `ModelAnimation`
(a group with an entirely empty channel instead panics in the build loop, see
the counterexample; the logged warning is not modelled). -/
theorem claim_C4_amended (st : ModelState) (clip : AnimationClip)
    (ht : st.trans ≠ []) (hr : st.rots ≠ []) (hs : st.scals ≠ []) :
    saveCurrentAnim st clip =
      some ⟨clip.name,
        (List.range (chanMax st)).map (fun i =>
          ⟨(padChannel st.trans (chanMax st)).getD i ⟨0, 0, 0⟩,
           (padChannel st.rots (chanMax st)).getD i ⟨1, ⟨0, 0, 0⟩⟩,
           (padChannel st.scals (chanMax st)).getD i ⟨1, 1, 1⟩⟩),
        st.timestamps⟩ := by
  have hmt : st.trans.length ≤ chanMax st := Nat.le_max_left _ _
  have hmr : st.rots.length ≤ chanMax st :=
    le_trans (Nat.le_max_left _ _) (Nat.le_max_right _ _)
  have hms : st.scals.length ≤ chanMax st :=
    le_trans (Nat.le_max_right _ _) (Nat.le_max_right _ _)
  unfold saveCurrentAnim
  by_cases hcond : st.trans.length ≠ st.rots.length ∨
      st.rots.length ≠ st.scals.length
  · rw [if_pos hcond]
    unfold buildInstances
    rw [if_pos ⟨le_of_eq (padChannel_length st.trans (chanMax st) ht hmt).symm,
      le_of_eq (padChannel_length st.rots (chanMax st) hr hmr).symm,
      le_of_eq (padChannel_length st.scals (chanMax st) hs hms).symm⟩]
  · rw [if_neg hcond]
    push_neg at hcond
    obtain ⟨hteq, hreq⟩ := hcond
    have hMt : chanMax st = st.trans.length := by
      unfold chanMax
      omega
    have e1 : padChannel st.trans (chanMax st) = st.trans := by
      rw [hMt]
      exact padChannel_self st.trans
    have e2 : padChannel st.rots (chanMax st) = st.rots := by
      rw [hMt, hteq]
      exact padChannel_self st.rots
    have e3 : padChannel st.scals (chanMax st) = st.scals := by
      rw [hMt, hteq, hreq]
      exact padChannel_self st.scals
    unfold buildInstances
    rw [if_pos ⟨by omega, by omega, by omega⟩, e1, e2, e3]

/-- Witness for C4 amended at the claim's concrete input: a "walk" group with
3 translation samples, 1 rotation sample and 3 scale samples; the merged
animation's rotation channel is 3 copies of the original rotation sample. -/
theorem claim_C4_amended_witness :
    (saveCurrentAnim
      ⟨[], [⟨0, 0, 0⟩, ⟨1, 0, 0⟩, ⟨2, 0, 0⟩], [⟨0, ⟨1, 0, 0⟩⟩],
        [⟨1, 1, 1⟩, ⟨1, 1, 1⟩, ⟨1, 1, 1⟩], [0, 1, 2], "walk"⟩
      ⟨"walk", Keyframes.translation [], [0]⟩).map
      (fun a => a.instances.map Instance.rotation) =
      some [⟨0, ⟨1, 0, 0⟩⟩, ⟨0, ⟨1, 0, 0⟩⟩, ⟨0, ⟨1, 0, 0⟩⟩] := by
  rw [claim_C4_amended
    ⟨[], [⟨0, 0, 0⟩, ⟨1, 0, 0⟩, ⟨2, 0, 0⟩], [⟨0, ⟨1, 0, 0⟩⟩],
      [⟨1, 1, 1⟩, ⟨1, 1, 1⟩, ⟨1, 1, 1⟩], [0, 1, 2], "walk"⟩
    ⟨"walk", Keyframes.translation [], [0]⟩ (by decide) (by decide)
    (by decide)]
  decide

/-- Embeds `Instanced` from `render.rs`, reduced to the fields `map_ids` reads
(buffer, model and front-face handles are opaque GPU state). -/
structure Instanced where
  amount : ℕ
  id : ℕ
deriving DecidableEq, Repr

/-- Embeds `Flat` from `render.rs`, likewise reduced. -/
structure Flat where
  amount : ℕ
  id : ℕ
deriving DecidableEq, Repr

mutual
/-- The `Render` enum of `render.rs`. `Custom` carries an opaque closure in
the source; `map_ids` ignores it, so it is modelled as a bare constructor. -/
inductive Render : Type where
  | none
  | default (i : Instanced)
  | defaults (l : List Instanced)
  | transparent (i : Instanced)
  | transparents (l : List Instanced)
  | gui (f : Flat)
  | terrain (f : Flat)
  | composed (rs : RenderList)
  | custom
deriving DecidableEq, Repr

/-- The `Vec<Render>` of `Render::Composed`. -/
inductive RenderList : Type where
  | rnil
  | rcons (head : Render) (tail : RenderList)
deriving DecidableEq, Repr
end

/-- The `HashMap<u32, HashSet<usize>>` translation map, as a function from
object id to the owning flow set; `none` models an absent key. -/
def PickMap : Type := ℕ → Option (Finset ℕ)

/-- Embeds one `map.entry(id).and_modify(|flows| flows.insert(flow_id))
.or_insert([flow_id])` step. -/
def mapInsert (m : PickMap) (oid : ℕ) (flow : ℕ) : PickMap :=
  fun k => if k = oid then some (insert flow ((m oid).getD ∅)) else m k

mutual
/-- Embeds `Render::map_ids(flow_id, map)`: record every drawable's id under
`flow_id`; recurse through `Composed`; ignore `None` and `Custom`. -/
def Render.mapIds : Render → ℕ → PickMap → PickMap
  | .none, _, m => m
  | .default i, f, m => mapInsert m i.id f
  | .defaults l, f, m => l.foldl (fun m i => mapInsert m i.id f) m
  | .transparent i, f, m => mapInsert m i.id f
  | .transparents l, f, m => l.foldl (fun m i => mapInsert m i.id f) m
  | .gui fl, f, m => mapInsert m fl.id f
  | .terrain fl, f, m => mapInsert m fl.id f
  | .composed rs, f, m => rs.mapIdsAll f m
  | .custom, _, m => m

/-- The `renders.into_iter().for_each(|render| render.map_ids(...))` loop of
the `Composed` arm. -/
def RenderList.mapIdsAll : RenderList → ℕ → PickMap → PickMap
  | .rnil, _, m => m
  | .rcons r rs, f, m => rs.mapIdsAll f (r.mapIds f m)
end

mutual
/-- The set of drawable ids occurring in a render tree. -/
def Render.ids : Render → Finset ℕ
  | .none => ∅
  | .default i => {i.id}
  | .defaults l => (l.map Instanced.id).toFinset
  | .transparent i => {i.id}
  | .transparents l => (l.map Instanced.id).toFinset
  | .gui fl => {fl.id}
  | .terrain fl => {fl.id}
  | .composed rs => rs.idsAll
  | .custom => ∅

/-- The drawable ids of a render list. -/
def RenderList.idsAll : RenderList → Finset ℕ
  | .rnil => ∅
  | .rcons r rs => r.ids ∪ rs.idsAll
end

/-- The `flows.iter_mut().enumerate().for_each(|(idx, flow)|
render.map_ids(idx, &mut translation))` loop of `draw_to_pick_buffer`,
starting at flow index `i`. -/
def mapIdsFlows : List Render → ℕ → PickMap → PickMap
  | [], _, m => m
  | r :: rs, i, m => mapIdsFlows rs (i + 1) (r.mapIds i m)

/-- The initially empty translation map. -/
def emptyPickMap : PickMap := fun _ => Option.none

/-- The translation map built per pick attempt from the flows' renders. -/
def translationMap (rs : List Render) : PickMap :=
  mapIdsFlows rs 0 emptyPickMap

/-- The flow indices (counted from `i`) whose render tree contains id `k`. -/
def ownersFrom : List Render → ℕ → ℕ → Finset ℕ
  | [], _, _ => ∅
  | r :: rs, i, k => (if k ∈ r.ids then {i} else ∅) ∪ ownersFrom rs (i + 1) k


lemma foldl_mapInsert (l : List Instanced) (f : ℕ) (m : PickMap) (k : ℕ) :
    (l.foldl (fun m i => mapInsert m i.id f) m) k =
      if k ∈ (l.map Instanced.id).toFinset then
        some (insert f ((m k).getD ∅))
      else m k := by
  induction l generalizing m with
  | nil => simp
  | cons i l ih =>
    rw [List.foldl_cons, ih]
    have hcons : k ∈ ((i :: l).map Instanced.id).toFinset ↔
        (k = i.id ∨ k ∈ (l.map Instanced.id).toFinset) := by
      simp
    by_cases hk : k = i.id
    · rw [if_pos (hcons.mpr (Or.inl hk))]
      by_cases hmem : k ∈ (l.map Instanced.id).toFinset
      · rw [if_pos hmem]
        simp [mapInsert, hk, Finset.insert_idem]
      · rw [if_neg hmem]
        simp [mapInsert, hk]
    · by_cases hmem : k ∈ (l.map Instanced.id).toFinset
      · rw [if_pos hmem, if_pos (hcons.mpr (Or.inr hmem))]
        simp [mapInsert, hk]
      · rw [if_neg hmem, if_neg (fun hc => by
          rcases hcons.mp hc with h | h
          · exact hk h
          · exact hmem h)]
        simp [mapInsert, hk]

mutual
theorem mapIds_lookup (r : Render) (f : ℕ) (m : PickMap) (k : ℕ) :
    (r.mapIds f m) k =
      if k ∈ r.ids then some (insert f ((m k).getD ∅)) else m k :=
  match r with
  | .none => by simp [Render.mapIds, Render.ids]
  | .default i => by
    by_cases hk : k = i.id <;>
      simp [Render.mapIds, Render.ids, mapInsert, hk]
  | .defaults l => by
    rw [Render.mapIds, Render.ids, foldl_mapInsert]
  | .transparent i => by
    by_cases hk : k = i.id <;>
      simp [Render.mapIds, Render.ids, mapInsert, hk]
  | .transparents l => by
    rw [Render.mapIds, Render.ids, foldl_mapInsert]
  | .gui fl => by
    by_cases hk : k = fl.id <;>
      simp [Render.mapIds, Render.ids, mapInsert, hk]
  | .terrain fl => by
    by_cases hk : k = fl.id <;>
      simp [Render.mapIds, Render.ids, mapInsert, hk]
  | .composed rs => by
    rw [Render.mapIds, Render.ids]
    exact mapIdsAll_lookup rs f m k
  | .custom => by simp [Render.mapIds, Render.ids]

theorem mapIdsAll_lookup (rs : RenderList) (f : ℕ) (m : PickMap) (k : ℕ) :
    (rs.mapIdsAll f m) k =
      if k ∈ rs.idsAll then some (insert f ((m k).getD ∅)) else m k :=
  match rs with
  | .rnil => by simp [RenderList.mapIdsAll, RenderList.idsAll]
  | .rcons r rs => by
    rw [RenderList.mapIdsAll, RenderList.idsAll,
      mapIdsAll_lookup rs f (r.mapIds f m) k, mapIds_lookup r f m k]
    by_cases h1 : k ∈ r.ids
    · simp only [if_pos h1]
      by_cases h2 : k ∈ rs.idsAll
      · simp only [if_pos h2, if_pos (Finset.mem_union_left rs.idsAll h1),
          Option.getD_some, Finset.insert_idem]
      · simp only [if_neg h2, if_pos (Finset.mem_union_left rs.idsAll h1)]
    · simp only [if_neg h1]
      by_cases h2 : k ∈ rs.idsAll
      · simp only [if_pos h2, if_pos (Finset.mem_union_right r.ids h2)]
      · have hnot : k ∉ r.ids ∪ rs.idsAll := by
          intro hc
          rcases Finset.mem_union.mp hc with h | h
          · exact h1 h
          · exact h2 h
        simp only [if_neg h2, if_neg hnot]
end

lemma mapIdsFlows_lookup (rs : List Render) (i : ℕ) (m : PickMap) (k : ℕ) :
    mapIdsFlows rs i m k =
      if ownersFrom rs i k = ∅ then m k
      else some (((m k).getD ∅) ∪ ownersFrom rs i k) := by
  induction rs generalizing i m with
  | nil => simp [mapIdsFlows, ownersFrom]
  | cons r rs ih =>
    rw [mapIdsFlows, ih, mapIds_lookup r i m k, ownersFrom]
    by_cases h1 : k ∈ r.ids
    · simp only [if_pos h1]
      by_cases h2 : ownersFrom rs (i + 1) k = ∅
      · rw [if_pos h2, h2, Finset.union_empty,
          if_neg (Finset.singleton_ne_empty i)]
        rw [Finset.insert_eq, Finset.union_comm]
      · rw [if_neg h2, if_neg (fun hc => by
          rw [Finset.union_eq_empty] at hc
          exact Finset.singleton_ne_empty i hc.1)]
        simp only [Option.getD_some]
        congr 1
        ext x
        simp only [Finset.mem_union, Finset.mem_insert, Finset.mem_singleton]
        tauto
    · simp only [if_neg h1, Finset.empty_union]

lemma mem_ownersFrom (rs : List Render) (i k j : ℕ) :
    j ∈ ownersFrom rs i k ↔
      ∃ (t : ℕ) (h : t < rs.length), j = i + t ∧ k ∈ (rs.get ⟨t, h⟩).ids := by
  induction rs generalizing i with
  | nil =>
    simp [ownersFrom]
  | cons r rs ih =>
    rw [ownersFrom]
    constructor
    · intro hj
      rcases Finset.mem_union.mp hj with hj | hj
      · by_cases hb : k ∈ r.ids
        · rw [if_pos hb, Finset.mem_singleton] at hj
          exact ⟨0, Nat.succ_pos _, by omega, hb⟩
        · rw [if_neg hb] at hj
          exact absurd hj (Finset.not_mem_empty j)
      · obtain ⟨t, h, hjt, hk⟩ := (ih (i + 1)).mp hj
        exact ⟨t + 1, Nat.succ_lt_succ h, by omega, hk⟩
    · rintro ⟨t, h, rfl, hk⟩
      cases t with
      | zero =>
        apply Finset.mem_union_left
        have hk2 : k ∈ r.ids := hk
        rw [if_pos hk2, Finset.mem_singleton]
        omega
      | succ t2 =>
        apply Finset.mem_union_right
        exact (ih (i + 1)).mpr
          ⟨t2, Nat.lt_of_succ_lt_succ h, by omega, hk⟩

/-- C8: after `map_ids` has been applied to every flow's render tree in turn,
the translation map sends an id `k` to `none` when no flow's tree contains a
drawable with id `k`, and otherwise to exactly the set of indices of the
flows whose tree contains such a drawable (ids colliding across flows
accumulate into one set). In particular, with flow 0 owning ids 1 and 2 and
flow 1 owning id 2, looking up id 2 yields both flows, id 1 yields flow 0
only, and id 7 yields no owners. -/
theorem claim_C8 :
    (∀ (rs : List Render) (k : ℕ),
      translationMap rs k =
        if ownersFrom rs 0 k = ∅ then Option.none
        else some (ownersFrom rs 0 k)) ∧
    (∀ (rs : List Render) (k j : ℕ),
      j ∈ ownersFrom rs 0 k ↔
        ∃ h : j < rs.length, k ∈ (rs.get ⟨j, h⟩).ids) ∧
    (translationMap
        [Render.defaults [⟨1, 1⟩, ⟨1, 2⟩],
         Render.defaults [⟨1, 2⟩]] 2 = some {0, 1} ∧
      translationMap
        [Render.defaults [⟨1, 1⟩, ⟨1, 2⟩],
         Render.defaults [⟨1, 2⟩]] 1 = some {0} ∧
      translationMap
        [Render.defaults [⟨1, 1⟩, ⟨1, 2⟩],
         Render.defaults [⟨1, 2⟩]] 7 = Option.none) := by
  have hmain : ∀ (rs : List Render) (k : ℕ),
      translationMap rs k =
        if ownersFrom rs 0 k = ∅ then Option.none
        else some (ownersFrom rs 0 k) := by
    intro rs k
    rw [translationMap, mapIdsFlows_lookup]
    by_cases h : ownersFrom rs 0 k = ∅
    · rw [if_pos h, if_pos h]
      rfl
    · rw [if_neg h, if_neg h]
      show some ((Option.none.getD ∅) ∪ _) = _
      rw [Option.getD_none, Finset.empty_union]
  refine ⟨hmain, ?_, ?_, ?_, ?_⟩
  · intro rs k j
    rw [mem_ownersFrom]
    constructor
    · rintro ⟨t, h, rfl, hk⟩
      exact ⟨by simpa using h, by simpa using hk⟩
    · rintro ⟨h, hk⟩
      exact ⟨j, h, by omega, hk⟩
  · have h : translationMap
        [Render.defaults [⟨1, 1⟩, ⟨1, 2⟩], Render.defaults [⟨1, 2⟩]] 2 =
        some (insert 1 (insert 0 ∅)) := by rfl
    rw [h]
    congr 1
    decide
  · rfl
  · rfl
